import Mathlib

/-!
Verification of the `cargo-run-wasm` build orchestrator (`src/lib.rs`).

The development shallowly embeds the program:

* the argument resolver `Args::from_env` (including the observable behaviour
  of the `pico_args` operations it calls: `contains`, `opt_value_from_str`
  and `finish`), with the `Result::unwrap` panics kept distinct from the
  `Err` values that the caller catches and prints;
* the pure path planning (`cargo` argument vector, wasm artifact path,
  staging directory);
* the pipeline body of `run_wasm_with_css`, as a pure function from the
  configuration and the outcomes of the external collaborators (compiler
  exit status, bindgen result) to a final outcome plus the ordered list of
  side effects it performs;
* the host-page templating step (Rust `str::replace` on the two placeholder
  tokens).

Rust strings are modelled as Lean `String` (equivalently their `List Char`
representation, on which the substring functions operate); all definitions
are executable.
-/

/-- Substring occurrence test on character lists: `occursB p s` is true iff
`p` occurs contiguously inside `s`.  This is the model of Rust
`str::contains` with a string pattern. -/
def occursB (p : List Char) : List Char → Bool
  | [] => p.isEmpty
  | c :: rest => p.isPrefixOf (c :: rest) || occursB p rest

/-- Model of Rust `str::starts_with` with a string pattern. -/
def strStartsWith (s pre : String) : Bool :=
  pre.data.isPrefixOf s.data

/-- Model of Rust `str::contains` with a string pattern. -/
def strContains (s pat : String) : Bool :=
  occursB pat.data s.data

/-! ## pico_args operations

`Args::from_env` drives a `pico_args::Arguments` value, which is the vector
of raw process arguments from which recognised flags are successively
removed.  We model the three operations the program uses as functions on
`List String`. -/

/-- Error raised by the `pico_args` value-flag lookup; the program calls
`.unwrap()` on it, so in the pipeline it surfaces as a panic, not as a
recoverable configuration error. -/
inductive PicoError where
  | optionWithoutAValue (key : String)
  deriving DecidableEq, Repr

/-- Removal of the first exact occurrence of `key`, as performed by
`pico_args::Arguments::contains` when the flag is present. -/
def removeFirst (key : String) : List String → List String
  | [] => []
  | x :: rest => if x = key then rest else x :: removeFirst key rest

/-- Model of `pico_args::Arguments::contains`: reports whether `key` occurs
and removes its first occurrence. -/
def picoContains (key : String) (l : List String) : Bool × List String :=
  (l.contains key, removeFirst key l)

/-- Result of scanning for a space-separated `--key value` pair. -/
inductive ExactScan where
  | notFound
  | lastNoValue
  | found (v : String) (rest : List String)
  deriving DecidableEq, Repr

/-- Scan for the first exact occurrence of `key`; its value is the next
token, and both are removed.  A `key` with no following token is the
`OptionWithoutAValue` error (the source unwraps it into a panic). -/
def takeExact (key : String) : List String → ExactScan
  | [] => .notFound
  | [x] => if x = key then .lastNoValue else .notFound
  | x :: y :: rest =>
    if x = key then .found y rest
    else
      match takeExact key (y :: rest) with
      | .notFound => .notFound
      | .lastNoValue => .lastNoValue
      | .found v r => .found v (x :: r)

/-- The quote characters accepted by `pico_args` around a `--key=value`
value (double and single quote). -/
def quoteChars : List Char := [Char.ofNat 34, Char.ofNat 39]

/-- Strip one layer of matching surrounding quotes from a `--key=value`
value, following `pico_args`: a dangling opening quote without the matching
closing quote is an `OptionWithoutAValue` error. -/
def unquote (key : String) (v : List Char) : Except PicoError (List Char) :=
  match v with
  | [] => .ok []
  | c :: rest =>
    if c ∈ quoteChars then
      if rest ≠ [] ∧ rest.getLast? = some c then .ok rest.dropLast
      else .error (.optionWithoutAValue key)
    else .ok (c :: rest)

/-- Scan for the first token of the form `key=value` (the alternative
syntax accepted by `pico_args`); the token is removed and the value
unquoted.  The recognised keys are ASCII, so the byte index used by
`pico_args` coincides with the character index. -/
def takeEq (key : String) : List String → Option (Except PicoError (String × List String))
  | [] => none
  | t :: rest =>
    if (key.data ++ [Char.ofNat 61]).isPrefixOf t.data then
      some ((unquote key (t.data.drop (key.data.length + 1))).map
        (fun v => (⟨v⟩, rest)))
    else
      (takeEq key rest).map (·.map (fun p => (p.1, t :: p.2)))

/-- Model of `pico_args::Arguments::opt_value_from_str::<String>`: look for
a space-separated `--key value` pair first, then for a `--key=value` token.
String values always parse, so the only error is a missing value. -/
def optValueFromStr (key : String) (l : List String) :
    Except PicoError (Option String × List String) :=
  match takeExact key l with
  | .found v rest => .ok (some v, rest)
  | .lastNoValue => .error (.optionWithoutAValue key)
  | .notFound =>
    match takeEq key l with
    | none => .ok (none, l)
    | some (.error e) => .error e
    | some (.ok (v, rest)) => .ok (some v, rest)

/-! ## The argument resolver `Args::from_env` -/

/-- The parsed CLI arguments (struct `Args` in the source).  The source
field `example` is a Lean keyword, so it is called `isExample` here. -/
structure Args where
  release : Bool
  isExample : Bool
  name : String
  features : Option String
  build_only : Bool
  host : Option String
  port : Option String
  deriving DecidableEq, Repr

/-- The recoverable configuration errors returned by `Args::from_env` as
`Err(String)`.  Constructors carry the data interpolated into the source
format strings: `Unknown option {0}`, `Expected NAME arg, but there was no
NAME arg`, and `Expected exactly one free arg, but there was {n} free
args: {0:?}`. -/
inductive ConfigError where
  | unknownOption (arg : String)
  | missingName
  | tooManyArgs (args : List String)
  deriving DecidableEq, Repr

/-- State after the six flag-extraction steps of `Args::from_env`:
the three boolean flags, the three optional values, and the remaining
token list returned by `Arguments::finish`. -/
structure Extracted where
  release : Bool
  isExample : Bool
  build_only : Bool
  features : Option String
  host : Option String
  port : Option String
  remaining : List String
  deriving DecidableEq, Repr

/-- The flag-extraction phase of `Args::from_env`, in source order:
`contains` for `--release`, `--example`, `--build-only`, then
`opt_value_from_str` for `--features`, `--host`, `--port` (each unwrapped,
so a `PicoError` is a panic). -/
def extractArgs (l : List String) : Except PicoError Extracted :=
  let r1 := picoContains "--release" l
  let r2 := picoContains "--example" r1.2
  let r3 := picoContains "--build-only" r2.2
  match optValueFromStr "--features" r3.2 with
  | .error e => .error e
  | .ok (features, l4) =>
    match optValueFromStr "--host" l4 with
    | .error e => .error e
    | .ok (host, l5) =>
      match optValueFromStr "--port" l5 with
      | .error e => .error e
      | .ok (port, l6) => .ok ⟨r1.1, r2.1, r3.1, features, host, port, l6⟩

/-- The classification of the remaining tokens in `Args::from_env`: the
first token starting with the flag prefix is an unknown option; otherwise
exactly one remaining token is the name, zero is the missing-name error,
and two or more is the too-many-arguments error carrying the full list. -/
def finishArgs (e : Extracted) : Except ConfigError Args :=
  match e.remaining.find? (fun t => strStartsWith t "-") with
  | some t => .error (.unknownOption t)
  | none =>
    match e.remaining with
    | [] => .error .missingName
    | [n] => .ok ⟨e.release, e.isExample, n, e.features, e.build_only, e.host, e.port⟩
    | _ => .error (.tooManyArgs e.remaining)

/-- Overall result of `Args::from_env`: a parsed `Args`, a recoverable
`Err` that the caller prints together with the usage text, or a panic from
an unwrapped `pico_args` error. -/
inductive FromEnvResult where
  | ok (a : Args)
  | err (e : ConfigError)
  | panicked (e : PicoError)
  deriving DecidableEq, Repr

/-- Model of `Args::from_env` on a raw argument vector. -/
def Args.from_env (l : List String) : FromEnvResult :=
  match extractArgs l with
  | .error e => .panicked e
  | .ok ex =>
    match finishArgs ex with
    | .error e => .err e
    | .ok a => .ok a

/-! ## Path planning and the cargo invocation -/

/-- Model of `Path::join` for the relative components the program uses. -/
def pathJoin (a b : String) : String := a ++ "/" ++ b

/-- The profile directory name: `release` when built with `--release`,
otherwise `debug`. -/
def profileDir (a : Args) : String := if a.release then "release" else "debug"

/-- The cargo argument vector built by `run_wasm_with_css`: the fixed
subcommand, wasm target and dedicated target directory, then the
unit-selection flag, optional features, optional release flag. -/
def cargoArgs (a : Args) : List String :=
  ["build", "--target", "wasm32-unknown-unknown",
   "--target-dir", "target/wasm-examples-target"]
  ++ (if a.isExample then ["--example", a.name] else ["--package", a.name])
  ++ (match a.features with
      | some f => ["--features", f]
      | none => [])
  ++ (if a.release then ["--release"] else [])

/-- The wasm artifact path predicted by the program:
`target/wasm-examples-target/wasm32-unknown-unknown/<profile>` under the
project root, with an `examples` component for example targets, and finally
`<name>.wasm`. -/
def wasmSource (root : String) (a : Args) : String :=
  let target_profile :=
    pathJoin (pathJoin root "target/wasm-examples-target/wasm32-unknown-unknown")
      (profileDir a)
  pathJoin (if a.isExample then pathJoin target_profile "examples" else target_profile)
    (a.name ++ ".wasm")

/-- The staging directory `target/wasm-examples/<name>` under the project
root. -/
def exampleDest (root : String) (a : Args) : String :=
  pathJoin (pathJoin root "target/wasm-examples") a.name

/-- Model of Rust `str::parse::<u32>` as used for the `--port` value: an
optional leading plus sign, then one or more decimal digits, value below
2^32; anything else fails (and the source `.expect(..)` turns the failure
into a panic). -/
def parseU32 (s : String) : Option Nat :=
  let t := if strStartsWith s "+" then s.data.drop 1 else s.data
  if t ≠ [] ∧ t.all (·.isDigit) then
    let v := t.foldl (fun acc c => acc * 10 + (c.toNat - 48)) 0
    if v < 4294967296 then some v else none
  else none

/-! ## Host-page templating

The template file `index.template.html` bundled next to the source via
`include_str!` is not part of the provided sources.  Modelled from the
spec: the host page is a fixed template containing two placeholder tokens,
one for the unit name and one for the CSS fragment, each occurring once. -/

/-- The unit-name placeholder token. -/
def nameTok : List Char := "\x7b\x7bname\x7d\x7d".data

/-- The CSS placeholder token. -/
def cssTok : List Char := "\x7b\x7bcss\x7d\x7d".data

/-- Modelled from the spec: the template text before the unit-name
placeholder. -/
def tplA : List Char := "<!DOCTYPE html><html lang=\"en\"><head><meta charset=\"UTF-8\"><title>".data

/-- Modelled from the spec: the template text between the two
placeholders. -/
def tplB : List Char := "</title><style type=\"text/css\">".data

/-- Modelled from the spec: the template text after the CSS placeholder. -/
def tplC : List Char := "</style></head><body><script type=\"module\">import init from \"./app.js\";init();</script></body></html>".data

/-- Modelled from the spec: the full host-page template
(`index.template.html`), with the two placeholder tokens in place. -/
def indexTemplate : List Char := tplA ++ (nameTok ++ (tplB ++ (cssTok ++ tplC)))

/-- Model of Rust `str::replace`: scan left to right, replacing each
non-overlapping occurrence of the (non-empty) pattern `p` by `r`.
Replacement text is not rescanned. -/
def replaceChars (p r : List Char) (s : List Char) : List Char :=
  match s with
  | [] => []
  | c :: rest =>
    if p.isPrefixOf (c :: rest) ∧ p ≠ [] then
      r ++ replaceChars p r (rest.drop (p.length - 1))
    else
      c :: replaceChars p r rest
termination_by s.length
decreasing_by
  · simp only [List.length_cons]
    have := List.length_drop (p.length - 1) rest
    omega
  · simp

/-- The host-page rendering step of `run_wasm_with_css`: substitute the
unit name first, then the CSS fragment. -/
def renderIndex (name css : List Char) : List Char :=
  replaceChars cssTok css (replaceChars nameTok name indexTemplate)

/-- String-level wrapper of `renderIndex`. -/
def renderIndexStr (name css : String) : String :=
  ⟨renderIndex name.data css.data⟩

/-! ## The pipeline `run_wasm_with_css` -/

/-- The ambient inputs of `run_wasm_with_css` that come from the process
environment and from the external collaborators: the optional `CARGO`
override, the workspace root (parent of `CARGO_MANIFEST_DIR`), the exit
status of the cargo child process, and whether bindgen succeeds. -/
structure RunEnv where
  cargoBin : Option String
  projectRoot : String
  compilerOk : Bool
  bindgenOk : Bool
  deriving DecidableEq, Repr

/-- The side effects of `run_wasm_with_css`, in program order. -/
inductive Effect where
  | runCargo (bin : String) (cwd : String) (args : List String)
  | createDirAll (path : String)
  | bindgenRun (input : String) (output : String)
  | writeFile (path : String) (content : String)
  | serve (host : String) (port : Nat) (root : String)
  deriving DecidableEq, Repr

/-- Whether an effect is the dev-server invocation. -/
def Effect.isServe : Effect → Bool
  | .serve _ _ _ => true
  | _ => false

/-- Terminal outcome of one `run_wasm_with_css` run. -/
inductive RunOutcome where
  | guardPanic
  | configError (e : ConfigError)
  | argPanic (e : PicoError)
  | compilerFailed
  | bindgenPanic
  | portPanic
  | builtOnly
  | served (host : String) (port : Nat)
  deriving DecidableEq, Repr

/-- Model of `run_wasm_with_css`: the CSS guard, argument resolution,
cargo invocation, staging, bindgen, host-page write, and the optional
serve step, producing the terminal outcome together with the ordered list
of side effects performed before stopping. -/
def run_wasm_with_css (css : String) (argv : List String) (env : RunEnv) :
    RunOutcome × List Effect :=
  if strContains css "</style>" then (.guardPanic, [])
  else
    match Args.from_env argv with
    | .panicked e => (.argPanic e, [])
    | .err e => (.configError e, [])
    | .ok args =>
      let cargo := env.cargoBin.getD "cargo"
      let compile := Effect.runCargo cargo env.projectRoot (cargoArgs args)
      if !env.compilerOk then (.compilerFailed, [compile])
      else
        let dest := exampleDest env.projectRoot args
        let src := wasmSource env.projectRoot args
        let effs := [compile, .createDirAll dest, .bindgenRun src dest]
        if !env.bindgenOk then (.bindgenPanic, effs)
        else
          let effs := effs ++ [.writeFile (pathJoin dest "index.html")
            (renderIndexStr args.name css)]
          if args.build_only then (.builtOnly, effs)
          else
            let host := args.host.getD "localhost"
            match parseU32 (args.port.getD "8000") with
            | none => (.portPanic, effs)
            | some p => (.served host p, effs ++ [.serve host p dest])

theorem wasmSource_spec (root : String) (a : Args) :
    wasmSource root a =
      root ++ "/target/wasm-examples-target/wasm32-unknown-unknown/"
        ++ profileDir a ++ "/"
        ++ (if a.isExample then "examples/" else "")
        ++ a.name ++ ".wasm" := by
  obtain ⟨rel, ex, nm, ft, bo, ho, po⟩ := a
  cases rel <;> cases ex <;>
    simp only [wasmSource, pathJoin, profileDir, if_true, if_false,
      Bool.false_eq_true, String.append_assoc] <;> congr 1

/-! ## Well-formed argument vectors

For the universally quantified claim about successful resolution we
describe the argument vectors built from recognised flags (each at most
once, value flags immediately followed by their value) and positional
tokens.  `flattenItems` maps such a description to the raw vector. -/

/-- One building block of a raw argument vector: a recognised boolean
flag, a recognised value flag together with its value token, or a free
(positional) token. -/
inductive ArgItem where
  | flagRelease
  | flagExample
  | flagBuildOnly
  | optFeatures (v : String)
  | optHost (v : String)
  | optPort (v : String)
  | name (n : String)
  deriving DecidableEq, Repr

/-- The raw tokens contributed by one item. -/
def ArgItem.tokens : ArgItem → List String
  | .flagRelease => ["--release"]
  | .flagExample => ["--example"]
  | .flagBuildOnly => ["--build-only"]
  | .optFeatures v => ["--features", v]
  | .optHost v => ["--host", v]
  | .optPort v => ["--port", v]
  | .name n => [n]

/-- The raw argument vector described by a list of items. -/
def flattenItems : List ArgItem → List String
  | [] => []
  | i :: rest => i.tokens ++ flattenItems rest

/-- Values of value flags and positional tokens must not start with the
flag prefix (otherwise they would be picked up as flags). -/
def ArgItem.wfItem : ArgItem → Bool
  | .optFeatures v => !strStartsWith v "-"
  | .optHost v => !strStartsWith v "-"
  | .optPort v => !strStartsWith v "-"
  | .name n => !strStartsWith n "-"
  | _ => true

/-- Classifier for the release flag item. -/
def ArgItem.isRelease : ArgItem → Bool
  | .flagRelease => true
  | _ => false

/-- Classifier for the example flag item. -/
def ArgItem.isExampleFlag : ArgItem → Bool
  | .flagExample => true
  | _ => false

/-- Classifier for the build-only flag item. -/
def ArgItem.isBuildOnly : ArgItem → Bool
  | .flagBuildOnly => true
  | _ => false

/-- Classifier for the features value-flag item. -/
def ArgItem.isFeatures : ArgItem → Bool
  | .optFeatures _ => true
  | _ => false

/-- Classifier for the host value-flag item. -/
def ArgItem.isHost : ArgItem → Bool
  | .optHost _ => true
  | _ => false

/-- Classifier for the port value-flag item. -/
def ArgItem.isPort : ArgItem → Bool
  | .optPort _ => true
  | _ => false

/-- Classifier for positional items. -/
def ArgItem.isName : ArgItem → Bool
  | .name _ => true
  | _ => false

/-- Well-formedness of an item list: every value and positional token
avoids the flag prefix, and each recognised flag appears at most once. -/
structure WFItems (items : List ArgItem) : Prop where
  wf_each : ∀ i ∈ items, i.wfItem = true
  rel_le : items.countP (fun i => i.isRelease) ≤ 1
  ex_le : items.countP (fun i => i.isExampleFlag) ≤ 1
  bo_le : items.countP (fun i => i.isBuildOnly) ≤ 1
  feat_le : items.countP (fun i => i.isFeatures) ≤ 1
  host_le : items.countP (fun i => i.isHost) ≤ 1
  port_le : items.countP (fun i => i.isPort) ≤ 1

/-- C5: the raw vector `--release --features a,b mycrate` resolves to the
configuration with release set, features `a,b`, unit name `mycrate` and all
other fields defaulted, and the derived cargo argument sequence is the
fixed subcommand, target and target-dir tokens followed by
`--package mycrate`, `--features a,b`, `--release`, in that order. -/
theorem release_features_scenario :
    Args.from_env ["--release", "--features", "a,b", "mycrate"] =
      .ok ⟨true, false, "mycrate", some "a,b", false, none, none⟩ ∧
    cargoArgs ⟨true, false, "mycrate", some "a,b", false, none, none⟩ =
      ["build", "--target", "wasm32-unknown-unknown",
       "--target-dir", "target/wasm-examples-target",
       "--package", "mycrate", "--features", "a,b", "--release"] :=
  ⟨rfl, rfl⟩

/-- C2: a css fragment containing the literal `</style>` makes
`run_wasm_with_css` stop with the guard panic before performing any side
effect: the effect trace is empty, so no directory is created, no compiler
runs and nothing is written. -/
theorem css_guard_rejects_before_effects (css : String) (argv : List String)
    (env : RunEnv) (h : strContains css "</style>" = true) :
    run_wasm_with_css css argv env = (.guardPanic, []) := by
  simp only [run_wasm_with_css, h, if_true]

/-- Witness for C2 at the concrete fragment `a</style>b`. -/
theorem css_guard_rejects_before_effects_witness :
    strContains "a</style>b" "</style>" = true ∧
    run_wasm_with_css "a</style>b" ["demo"] ⟨none, "root", true, true⟩ =
      (.guardPanic, []) :=
  ⟨by decide, css_guard_rejects_before_effects _ _ _ (by decide)⟩

/-- C4: for every configuration the artifact path derived by the program
equals `<root>/target/wasm-examples-target/wasm32-unknown-unknown/` then
the profile directory (`release` or `debug`), an `examples/` segment iff
the example flag is set, and `<name>.wasm`. -/
theorem artifact_path_spec (root : String) (a : Args) :
    wasmSource root a =
      root ++ "/target/wasm-examples-target/wasm32-unknown-unknown/"
        ++ profileDir a ++ "/"
        ++ (if a.isExample then "examples/" else "")
        ++ a.name ++ ".wasm" := by
  obtain ⟨rel, ex, nm, ft, bo, ho, po⟩ := a
  cases rel <;> cases ex <;>
    simp only [wasmSource, pathJoin, profileDir, if_true, if_false,
      Bool.false_eq_true, String.append_assoc] <;> congr 1

/-- C1 (counterexample): the vector `["--features"]` has the value flag
`--features` present without a following value, yet resolution does not
yield a caught-and-printed `ConfigError`: the unwrap on the `pico_args`
error panics, so the run aborts with a panic outcome (and, in particular,
never reaches the usage-printing branch). -/
theorem missing_value_flag_panics_cex :
    Args.from_env ["--features"] = .panicked (.optionWithoutAValue "--features") ∧
    run_wasm_with_css "" ["--features"] ⟨none, "root", true, true⟩ =
      (.argPanic (.optionWithoutAValue "--features"), []) :=
  ⟨rfl, rfl⟩

/-- C1 (amended): when value-flag extraction fails (a value flag present
without a following value), `Args::from_env` panics with the unwrapped
`pico_args` error rather than returning a recoverable `ConfigError`; the
pipeline still does not start (empty effect trace), but no usage text is
printed. -/
theorem missing_value_flag_panics (css : String) (argv : List String)
    (env : RunEnv) (e : PicoError) (hg : strContains css "</style>" = false)
    (hx : extractArgs argv = .error e) :
    run_wasm_with_css css argv env = (.argPanic e, []) := by
  simp only [run_wasm_with_css, hg, Bool.false_eq_true, if_false,
    Args.from_env, hx]

/-- Witness for C1 at `--host` as the final token. -/
theorem missing_value_flag_panics_witness :
    strContains "x" "</style>" = false ∧
    run_wasm_with_css "x" ["--host"] ⟨some "cargo", "r", true, true⟩ =
      (.argPanic (.optionWithoutAValue "--host"), []) :=
  ⟨by decide, missing_value_flag_panics _ _ _ _ (by decide) rfl⟩

/-- C7 (counterexample): on `["--bogus"]` flag extraction completes and the
remaining token list `["--bogus"]` contains zero non-flag tokens, yet
resolution fails with the unknown-option error, not with the missing-name
error: the flag-prefix scan runs before the arity check. -/
theorem arity_errors_after_extraction_cex :
    extractArgs ["--bogus"] = .ok ⟨false, false, false, none, none, none, ["--bogus"]⟩ ∧
    (["--bogus"].countP (fun t => !strStartsWith t "-")) = 0 ∧
    Args.from_env ["--bogus"] = .err (.unknownOption "--bogus") :=
  ⟨rfl, rfl, rfl⟩

/-- C7 (amended): when flag extraction completes and none of the remaining
tokens starts with the flag prefix, an empty remainder resolves to the
missing-name error and a remainder of two or more tokens resolves to the
too-many-arguments error carrying the full remaining list.  (Determinism
is immediate: resolution is a pure function of the argument vector.) -/
theorem arity_errors_after_extraction (l : List String) (ex : Extracted)
    (hx : extractArgs l = .ok ex)
    (hnf : ∀ t ∈ ex.remaining, strStartsWith t "-" = false) :
    (ex.remaining = [] → Args.from_env l = .err .missingName) ∧
    (2 ≤ ex.remaining.length → Args.from_env l = .err (.tooManyArgs ex.remaining)) := by
  have hfind : ex.remaining.find? (fun t => strStartsWith t "-") = none := by
    rw [List.find?_eq_none]
    intro t ht
    simp [hnf t ht]
  constructor
  · intro hrem
    simp only [Args.from_env, hx, finishArgs, hrem, List.find?_nil]
  · intro hlen
    simp only [Args.from_env, hx, finishArgs, hfind]
    match hr : ex.remaining, hlen with
    | a :: b :: t, _ => rfl

/-- Witness for C7 at the empty vector and at `["a", "b"]`. -/
theorem arity_errors_after_extraction_witness :
    Args.from_env [] = .err .missingName ∧
    Args.from_env ["a", "b"] = .err (.tooManyArgs ["a", "b"]) :=
  ⟨(arity_errors_after_extraction []
      ⟨false, false, false, none, none, none, []⟩ rfl (by simp)).1 rfl,
   (arity_errors_after_extraction ["a", "b"]
      ⟨false, false, false, none, none, none, ["a", "b"]⟩ rfl (by decide)).2
      (by decide)⟩

/-- C8: when flag extraction completes and some remaining token starts
with the flag prefix while not being one of the six recognised flags,
resolution fails with an unknown-option error. -/
theorem unknown_option_rejected (l : List String) (ex : Extracted)
    (hx : extractArgs l = .ok ex) (t : String) (ht : t ∈ ex.remaining)
    (hpre : strStartsWith t "-" = true)
    (_hnot : t ∉ ["--release", "--example", "--build-only",
                 "--features", "--host", "--port"]) :
    ∃ u, Args.from_env l = .err (.unknownOption u) := by
  have hsome : (ex.remaining.find? (fun t => strStartsWith t "-")).isSome := by
    rw [List.find?_isSome]
    exact ⟨t, ht, hpre⟩
  obtain ⟨u, hu⟩ := Option.isSome_iff_exists.mp hsome
  exact ⟨u, by simp only [Args.from_env, hx, finishArgs, hu]⟩

/-- Witness for C8 at `["--bogus", "x"]`. -/
theorem unknown_option_rejected_witness :
    ∃ u, Args.from_env ["--bogus", "x"] = .err (.unknownOption u) :=
  unknown_option_rejected ["--bogus", "x"]
    ⟨false, false, false, none, none, none, ["--bogus", "x"]⟩ rfl
    "--bogus" (by decide) (by decide) (by decide)

/-- C9: a run whose configuration has the build-only flag set, and whose
compiler and bindgen steps succeed, finishes with the build-only outcome
and its effect trace contains no dev-server invocation: the serve step is
never reached (in particular the port string is never parsed, since the
outcome is independent of it). -/
theorem build_only_skips_serve (css : String) (argv : List String)
    (env : RunEnv) (a : Args) (hg : strContains css "</style>" = false)
    (ha : Args.from_env argv = .ok a) (hb : a.build_only = true)
    (hc : env.compilerOk = true) (hbg : env.bindgenOk = true) :
    (run_wasm_with_css css argv env).1 = .builtOnly ∧
    (run_wasm_with_css css argv env).2.all (fun e => !e.isServe) = true := by
  simp [run_wasm_with_css, hg, ha, hc, hbg, hb, Effect.isServe,
    List.all_append]

/-- Witness for C9 at `["--build-only", "widget"]`. -/
theorem build_only_skips_serve_witness :
    (run_wasm_with_css "" ["--build-only", "widget"] ⟨none, "root", true, true⟩).1
      = .builtOnly ∧
    (run_wasm_with_css "" ["--build-only", "widget"] ⟨none, "root", true, true⟩).2.all
      (fun e => !e.isServe) = true :=
  build_only_skips_serve "" ["--build-only", "widget"] ⟨none, "root", true, true⟩
    ⟨false, false, "widget", none, true, none, none⟩
    (by decide) rfl rfl rfl rfl

/-- C10: with the build-only flag set the port string is never parsed, so
a run with a malformed `--port` value still finishes with the build-only
outcome; without build-only, a malformed port value (one `str::parse::<u32>`
rejects) makes the run end in the port panic, i.e. the malformed value is
only detected, and is fatal, when the serve step actually runs. -/
theorem port_parse_deferred_to_serve (css : String) (argv : List String)
    (env : RunEnv) (a : Args) (hg : strContains css "</style>" = false)
    (ha : Args.from_env argv = .ok a) (hc : env.compilerOk = true)
    (hbg : env.bindgenOk = true) :
    (a.build_only = true → (run_wasm_with_css css argv env).1 = .builtOnly) ∧
    (a.build_only = false → parseU32 (a.port.getD "8000") = none →
      (run_wasm_with_css css argv env).1 = .portPanic) := by
  constructor
  · intro hb
    simp only [run_wasm_with_css, hg, Bool.false_eq_true, if_false, ha, hc,
      hbg, hb, Bool.not_true, if_true]
  · intro hb hport
    simp only [run_wasm_with_css, hg, Bool.false_eq_true, if_false, ha, hc,
      hbg, hb, Bool.not_true, if_true, hport]

/-- Witness for C10: `--build-only --port abc widget` finishes as a plain
build with no port error, while `--port abc widget` ends in the port
panic. -/
theorem port_parse_deferred_to_serve_witness :
    (run_wasm_with_css "" ["--build-only", "--port", "abc", "widget"]
      ⟨none, "root", true, true⟩).1 = .builtOnly ∧
    (run_wasm_with_css "" ["--port", "abc", "widget"]
      ⟨none, "root", true, true⟩).1 = .portPanic :=
  ⟨(port_parse_deferred_to_serve "" ["--build-only", "--port", "abc", "widget"]
      ⟨none, "root", true, true⟩
      ⟨false, false, "widget", none, true, none, some "abc"⟩
      (by decide) rfl rfl rfl).1 rfl,
   (port_parse_deferred_to_serve "" ["--port", "abc", "widget"]
      ⟨none, "root", true, true⟩
      ⟨false, false, "widget", none, false, none, some "abc"⟩
      (by decide) rfl rfl rfl).2 rfl rfl⟩

/-! ## Lemmas about substring occurrence and `str::replace` -/

/-- The empty pattern occurs everywhere. -/
theorem occursB_nil (l : List Char) : occursB [] l = true := by
  cases l <;> simp [occursB, List.isPrefixOf]

/-- Occurrence is preserved by extending the scanned list on the left. -/
theorem occursB_cons (p : List Char) (c : Char) (t : List Char)
    (h : occursB p t = true) : occursB p (c :: t) = true := by
  simp [occursB, h]

/-- A prefix of the list is an occurrence. -/
theorem occursB_of_isPrefixOf (p l : List Char) (h : p.isPrefixOf l = true) :
    occursB p l = true := by
  cases l with
  | nil =>
    cases p with
    | nil => rfl
    | cons c t => simp [List.isPrefixOf] at h
  | cons c t => simp [occursB, h]

/-- Characterisation of occurrence as a three-way split of the list. -/
theorem occursB_iff (p l : List Char) :
    occursB p l = true ↔ ∃ a b, l = a ++ (p ++ b) := by
  induction l with
  | nil =>
    simp only [occursB, List.isEmpty_iff]
    constructor
    · intro h
      exact ⟨[], [], by simp [h]⟩
    · rintro ⟨a, b, hab⟩
      rcases List.append_eq_nil.mp hab.symm with ⟨ha, hpb⟩
      exact (List.append_eq_nil.mp hpb).1
  | cons c t IH =>
    simp only [occursB, Bool.or_eq_true]
    constructor
    · rintro (h | h)
      · rcases List.isPrefixOf_iff_prefix.mp h with ⟨b, hb⟩
        exact ⟨[], b, by simp [hb]⟩
      · rcases IH.mp h with ⟨a, b, hab⟩
        exact ⟨c :: a, b, by simp [hab]⟩
    · rintro ⟨a, b, hab⟩
      cases a with
      | nil =>
        left
        exact List.isPrefixOf_iff_prefix.mpr ⟨b, by simpa using hab.symm⟩
      | cons a0 a' =>
        right
        have h2 : c = a0 ∧ t = a' ++ (p ++ b) := by simpa using hab
        exact IH.mpr ⟨a', b, h2.2⟩
/-- An explicit occurrence. -/
theorem occursB_exact (p a b : List Char) : occursB p (a ++ (p ++ b)) = true :=
  (occursB_iff p _).mpr ⟨a, b, rfl⟩

/-- An occurrence inside an appended list lies inside the left part,
inside the right part, or spans the boundary (a non-trivial split of the
pattern into a suffix of the left part and a prefix of the right part). -/
theorem occursB_append_cases (p x y : List Char)
    (h : occursB p (x ++ y) = true) :
    occursB p x = true ∨ occursB p y = true ∨
      ∃ p1 p2, p = p1 ++ p2 ∧ p1 ≠ [] ∧ p2 ≠ [] ∧
        (∃ s, s ++ p1 = x) ∧ (∃ t, p2 ++ t = y) := by
  rcases (occursB_iff p _).mp h with ⟨a, b, hab⟩
  rcases List.append_eq_append_iff.mp hab with ⟨a2, ha2, hy⟩ | ⟨c2, hx, hpb⟩
  · right; left
    exact (occursB_iff p y).mpr ⟨a2, b, hy⟩
  · rcases List.append_eq_append_iff.mp hpb with ⟨a3, hc2, hb⟩ | ⟨c3, hp, hy⟩
    · left
      exact (occursB_iff p x).mpr ⟨a, a3, by rw [hx, hc2]⟩
    · cases hc3 : c3 with
      | nil =>
        left
        refine (occursB_iff p x).mpr ⟨a, [], ?_⟩
        rw [hx]
        subst hc3
        simp only [List.append_nil] at hp
        rw [hp]
        simp
      | cons d t =>
        cases hc2 : c2 with
        | nil =>
          right; left
          refine (occursB_iff p y).mpr ⟨[], b, ?_⟩
          subst hc2
          simp only [List.nil_append] at hp
          rw [hy, hp]
          simp
        | cons d2 t2 =>
          right; right
          exact ⟨c2, c3, hp, by simp [hc2], by simp [hc3],
            ⟨a, hx.symm⟩, ⟨b, hy.symm⟩⟩

/-- Replacement passes unchanged over a region that does not contain the
head character of the pattern. -/
theorem replaceChars_append_not_mem (p r : List Char) (c0 : Char)
    (hp : p.head? = some c0) (x y : List Char) (hx : c0 ∉ x) :
    replaceChars p r (x ++ y) = x ++ replaceChars p r y := by
  cases p with
  | nil => simp at hp
  | cons ph pt =>
    have hph : ph = c0 := by simpa using hp
    subst hph
    induction x with
    | nil => simp
    | cons c t IH =>
      have hc : c ≠ ph := fun h => hx (by simp [h])
      have ht : ph ∉ t := fun h => hx (by simp [h])
      show replaceChars (ph :: pt) r (c :: (t ++ y)) = _
      rw [replaceChars]
      have hnp : (ph :: pt).isPrefixOf (c :: (t ++ y)) = false := by
        simp [List.isPrefixOf]
        intro h
        exact absurd h.symm hc
      rw [if_neg]
      · rw [IH ht]
        simp
      · simp [hnp]

/-- Replacement of a pattern standing at the head of the list. -/
theorem replaceChars_head_match (p r t : List Char) (hp : p ≠ []) :
    replaceChars p r (p ++ t) = r ++ replaceChars p r t := by
  cases p with
  | nil => exact absurd rfl hp
  | cons ph pt =>
    show replaceChars (ph :: pt) r (ph :: (pt ++ t)) = _
    rw [replaceChars]
    have hpre : (ph :: pt).isPrefixOf (ph :: (pt ++ t)) = true := by
      simp [List.isPrefixOf]
    rw [if_pos]
    · have hd : (pt ++ t).drop ((ph :: pt).length - 1) = t := by
        simp only [List.length_cons, Nat.add_sub_cancel, List.drop_left]
      rw [hd]
    · exact ⟨hpre, by simp⟩

/-- Replacement is the identity when the pattern does not occur. -/
theorem replaceChars_no_occ (p r s : List Char)
    (h : occursB p s = false) : replaceChars p r s = s := by
  induction s with
  | nil => simp [replaceChars]
  | cons c t IH =>
    have h2 : p.isPrefixOf (c :: t) = false ∧ occursB p t = false := by
      have := h
      simp only [occursB, Bool.or_eq_false_iff] at this
      exact this
    rw [replaceChars, if_neg]
    · rw [IH h2.2]
    · intro hcon
      rw [h2.1] at hcon
      exact absurd hcon.1 (by simp)

/-- The name-substitution step on the template: the surrounding template
text contains no brace, so the only occurrence of the name token is the
placeholder itself, which is replaced. -/
theorem render_first_step (name : List Char) :
    replaceChars nameTok name indexTemplate =
      tplA ++ (name ++ (tplB ++ (cssTok ++ tplC))) := by
  rw [indexTemplate]
  rw [replaceChars_append_not_mem nameTok name ('\x7b') (by decide) tplA _
    (by decide)]
  rw [replaceChars_head_match nameTok name _ (by decide)]
  rw [replaceChars_no_occ nameTok name (tplB ++ (cssTok ++ tplC)) (by decide)]

/-- The full rendering: the host page is the template text with the name
and the CSS fragment in the placeholder positions. -/
theorem render_eq (name css : List Char) (hname : ('\x7b') ∉ name) :
    renderIndex name css = tplA ++ (name ++ (tplB ++ (css ++ tplC))) := by
  rw [renderIndex, render_first_step name]
  rw [replaceChars_append_not_mem cssTok css ('\x7b') (by decide) tplA _
    (by decide)]
  rw [replaceChars_append_not_mem cssTok css ('\x7b') (by decide) name _ hname]
  rw [replaceChars_append_not_mem cssTok css ('\x7b') (by decide) tplB _
    (by decide)]
  rw [replaceChars_head_match cssTok css tplC (by decide)]
  rw [replaceChars_no_occ cssTok css tplC (by decide)]

/-- The head character of a pattern occurs in any list the pattern occurs
in. -/
theorem head_mem_of_occurs (tok l : List Char) (c0 : Char)
    (hhead : tok.head? = some c0) (h : occursB tok l = true) : c0 ∈ l := by
  obtain ⟨a, b, hab⟩ := (occursB_iff tok l).mp h
  cases tok with
  | nil => simp at hhead
  | cons c t =>
    have hc : c = c0 := by simpa using hhead
    subst hc
    rw [hab]
    simp

/-- A span whose left part is a non-empty suffix of `x` puts the head
character of the pattern into `x`. -/
theorem span_left_head (tok x : List Char) (c0 : Char)
    (hhead : tok.head? = some c0) (p1 p2 : List Char)
    (htok : tok = p1 ++ p2) (hne : p1 ≠ []) (hsuf : ∃ s, s ++ p1 = x) :
    c0 ∈ x := by
  cases p1 with
  | nil => exact absurd rfl hne
  | cons c t =>
    have hc : c = c0 := by
      rw [htok] at hhead
      simpa using hhead
    subst hc
    obtain ⟨s, hs⟩ := hsuf
    rw [← hs]
    simp

/-- A span whose right part is a non-empty prefix of `y` makes the head
character of `y` a character of the pattern. -/
theorem span_right_mem (tok y : List Char) (p1 p2 : List Char)
    (htok : tok = p1 ++ p2) (hne : p2 ≠ []) (hpre : ∃ t, p2 ++ t = y) :
    ∃ c, y.head? = some c ∧ c ∈ tok := by
  cases p2 with
  | nil => exact absurd rfl hne
  | cons c t =>
    obtain ⟨u, hu⟩ := hpre
    refine ⟨c, ?_, ?_⟩
    · rw [← hu]
      rfl
    · rw [htok]
      simp

/-- Master lemma: a placeholder-shaped token (its head character is the
opening brace, which the fixed template pieces avoid) does not occur in
the rendered page provided it does not occur in the CSS fragment and the
unit name has no opening brace. -/
theorem no_tok_in_rendered (tok : List Char) (c0 : Char)
    (hhead : tok.head? = some c0) (name css : List Char) (hname : c0 ∉ name)
    (hcss : occursB tok css = false) (hA : occursB tok tplA = false)
    (hB : occursB tok tplB = false) (hC : occursB tok tplC = false)
    (hcA : c0 ∉ tplA) (hcB : c0 ∉ tplB)
    (hCfirst : ∀ c, tplC.head? = some c → c ∉ tok) :
    occursB tok (tplA ++ (name ++ (tplB ++ (css ++ tplC)))) = false := by
  rw [Bool.eq_false_iff]
  intro h1
  rcases occursB_append_cases _ _ _ h1 with h | h | ⟨p1, p2, htok, hn1, hn2, hsuf, hpre⟩
  · simp [hA] at h
  · rcases occursB_append_cases _ _ _ h with h | h | ⟨p1, p2, htok, hn1, hn2, hsuf, hpre⟩
    · exact absurd (head_mem_of_occurs tok name c0 hhead h) hname
    · rcases occursB_append_cases _ _ _ h with h | h | ⟨p1, p2, htok, hn1, hn2, hsuf, hpre⟩
      · simp [hB] at h
      · rcases occursB_append_cases _ _ _ h with h | h | ⟨p1, p2, htok, hn1, hn2, hsuf, hpre⟩
        · simp [hcss] at h
        · simp [hC] at h
        · obtain ⟨c, hc, hmem⟩ := span_right_mem tok tplC p1 p2 htok hn2 hpre
          exact hCfirst c hc hmem
      · exact absurd (span_left_head tok tplB c0 hhead p1 p2 htok hn1 hsuf) hcB
    · exact absurd (span_left_head tok name c0 hhead p1 p2 htok hn1 hsuf) hname
  · exact absurd (span_left_head tok tplA c0 hhead p1 p2 htok hn1 hsuf) hcA

/-- C3 (counterexample): with unit name `demo` (no brace) and the css
fragment `\x7b\x7bname\x7d\x7d` — which does not contain `</style>` — the
rendered page contains an occurrence of the unit-name placeholder token:
the substituted css fragment reintroduces a placeholder, so the claimed
zero-occurrence property fails without an extra hypothesis on the css
fragment. -/
theorem template_substitution_cex :
    ('\x7b') ∉ "demo".data ∧
    occursB "</style>".data "\x7b\x7bname\x7d\x7d".data = false ∧
    occursB nameTok
      (renderIndex "demo".data "\x7b\x7bname\x7d\x7d".data) = true := by
  refine ⟨by decide, by decide, ?_⟩
  rw [render_eq "demo".data "\x7b\x7bname\x7d\x7d".data (by decide)]
  decide

/-- C3 (amended): for every unit name without an opening brace and every
css fragment that does not contain `</style>` and contains neither
placeholder token, the rendered page (name substituted first, then css)
contains the literal name and the literal css fragment and has zero
occurrences of either placeholder token; moreover the intermediate page
after the name substitution is exactly the template text around the name
with the single css placeholder intact, so substituting the name first
cannot create a spurious css placeholder. -/
theorem template_substitution_safe (name css : List Char)
    (hname : ('\x7b') ∉ name)
    (_hguard : occursB "</style>".data css = false)
    (hn : occursB nameTok css = false) (hc : occursB cssTok css = false) :
    occursB name (renderIndex name css) = true ∧
    occursB css (renderIndex name css) = true ∧
    occursB nameTok (renderIndex name css) = false ∧
    occursB cssTok (renderIndex name css) = false ∧
    replaceChars nameTok name indexTemplate =
      tplA ++ (name ++ (tplB ++ (cssTok ++ tplC))) := by
  have hre := render_eq name css hname
  have hgrp : tplA ++ (name ++ (tplB ++ (css ++ tplC))) =
      (tplA ++ (name ++ tplB)) ++ (css ++ tplC) := by
    simp [List.append_assoc]
  refine ⟨?_, ?_, ?_, ?_, render_first_step name⟩
  · rw [hre]
    exact occursB_exact name tplA (tplB ++ (css ++ tplC))
  · rw [hre, hgrp]
    exact occursB_exact css (tplA ++ (name ++ tplB)) tplC
  · rw [hre]
    refine no_tok_in_rendered nameTok ('\x7b') rfl name css hname hn
      (by decide) (by decide) (by decide) (by decide) (by decide) ?_
    intro c hcd
    have h2 : c = Char.ofNat 60 := by
      have h3 : tplC.head? = some (Char.ofNat 60) := rfl
      rw [h3] at hcd
      exact (Option.some_inj.mp hcd).symm
    subst h2
    decide
  · rw [hre]
    refine no_tok_in_rendered cssTok ('\x7b') rfl name css hname hc
      (by decide) (by decide) (by decide) (by decide) (by decide) ?_
    intro c hcd
    have h2 : c = Char.ofNat 60 := by
      have h3 : tplC.head? = some (Char.ofNat 60) := rfl
      rw [h3] at hcd
      exact (Option.some_inj.mp hcd).symm
    subst h2
    decide

/-- Witness for C3 at name `demo` and css `body\x7bmargin:0\x7d`. -/
theorem template_substitution_safe_witness :
    ('\x7b') ∉ "demo".data ∧
    occursB nameTok (renderIndex "demo".data "body\x7bmargin:0\x7d".data) = false ∧
    occursB cssTok (renderIndex "demo".data "body\x7bmargin:0\x7d".data) = false ∧
    occursB "demo".data (renderIndex "demo".data "body\x7bmargin:0\x7d".data) = true ∧
    occursB "body\x7bmargin:0\x7d".data
      (renderIndex "demo".data "body\x7bmargin:0\x7d".data) = true := by
  have h := template_substitution_safe "demo".data "body\x7bmargin:0\x7d".data
    (by decide) (by decide) (by decide) (by decide)
  exact ⟨by decide, h.2.2.1, h.2.2.2.1, h.1, h.2.1⟩

/-! ## Lemmas about well-formed argument vectors -/

/-- Membership in a flattened item list. -/
theorem mem_flattenItems (t : String) (items : List ArgItem) :
    t ∈ flattenItems items ↔ ∃ i ∈ items, t ∈ i.tokens := by
  induction items with
  | nil => simp [flattenItems]
  | cons i rest IH => simp [flattenItems, List.mem_append, IH]

/-- Well-formedness is preserved by filtering. -/
theorem WFItems.filter (items : List ArgItem) (q : ArgItem → Bool)
    (h : WFItems items) : WFItems (items.filter q) := by
  refine ⟨?_, ?_, ?_, ?_, ?_, ?_, ?_⟩
  · intro i hi
    exact h.wf_each i (List.mem_of_mem_filter hi)
  all_goals
    exact le_trans ((List.filter_sublist items).countP_le _)
      (by first
        | exact h.rel_le
        | exact h.ex_le
        | exact h.bo_le
        | exact h.feat_le
        | exact h.host_le
        | exact h.port_le)

/-- A token that does not start with the flag prefix differs from every
token that does. -/
theorem ne_of_not_dash (v : String) (hv : strStartsWith v "-" = false)
    (k : String) (hk : strStartsWith k "-" = true) : v ≠ k := by
  intro h
  subst h
  rw [hv] at hk
  exact Bool.noConfusion hk

/-- A token that does not start with the flag prefix has no prefix of the
form `key=` for a key that starts with the flag prefix. -/
theorem eq_prefix_false_of_not_dash (v : String)
    (hv : strStartsWith v "-" = false) (key : String)
    (hk : strStartsWith key "-" = true) :
    (key.data ++ [Char.ofNat 61]).isPrefixOf v.data = false := by
  rw [Bool.eq_false_iff]
  intro hcon
  obtain ⟨t2, ht2⟩ := List.isPrefixOf_iff_prefix.mp hk
  obtain ⟨t3, ht3⟩ := List.isPrefixOf_iff_prefix.mp hcon
  have hvd : strStartsWith v "-" = true := by
    apply List.isPrefixOf_iff_prefix.mpr
    refine ⟨(t2 ++ [Char.ofNat 61]) ++ t3, ?_⟩
    rw [← ht3, ← ht2]
    simp
  rw [hv] at hvd
  exact Bool.noConfusion hvd

/-- Removing a key that does not occur in the left part skips it. -/
theorem removeFirst_append_not_mem (key : String) (xs ys : List String)
    (hx : key ∉ xs) :
    removeFirst key (xs ++ ys) = xs ++ removeFirst key ys := by
  induction xs with
  | nil => rfl
  | cons x t IH =>
    have hx1 : x ≠ key := fun h => hx (by simp [h])
    have hx2 : key ∉ t := fun h => hx (by simp [h])
    simp only [List.cons_append, removeFirst, if_neg hx1]
    exact congrArg (x :: ·) (IH hx2)

/-- Effect of one `contains` extraction step on a flattened well-formed
item list: the flag is reported iff its item is present, and removal of
its (unique) token is removal of the item. -/
theorem picoContains_flatten (key : String) (isK : ArgItem → Bool)
    (hsingle : ∀ i, isK i = true → i.tokens = [key])
    (hother : ∀ i, i.wfItem = true → isK i = false → key ∉ i.tokens)
    (items : List ArgItem) (hwf : ∀ i ∈ items, i.wfItem = true)
    (hcount : items.countP isK ≤ 1) :
    (flattenItems items).contains key = items.any isK ∧
    removeFirst key (flattenItems items) =
      flattenItems (items.filter (fun i => !(isK i))) := by
  induction items with
  | nil => simp [flattenItems, removeFirst]
  | cons i rest IH =>
    have hwf_i : i.wfItem = true := hwf i (by simp)
    have hwf_rest : ∀ j ∈ rest, j.wfItem = true := fun j hj => hwf j (by simp [hj])
    by_cases hk : isK i = true
    · have htok := hsingle i hk
      have hcount0 : rest.countP isK = 0 := by
        simp only [List.countP_cons, hk, if_pos] at hcount
        omega
      have hnone : ∀ j ∈ rest, isK j = false := by
        intro j hj
        have := List.countP_eq_zero.mp hcount0 j hj
        simpa using this
      have hnokey : key ∉ flattenItems rest := by
        rw [mem_flattenItems]
        rintro ⟨j, hj, hjt⟩
        exact absurd hjt (hother j (hwf_rest j hj) (hnone j hj))
      have hfilter : rest.filter (fun i => !(isK i)) = rest := by
        apply List.filter_eq_self.mpr
        intro j hj
        simp [hnone j hj]
      constructor
      · show (i.tokens ++ flattenItems rest).contains key = _
        rw [htok]
        simp [hk]
      · show removeFirst key (i.tokens ++ flattenItems rest) = _
        rw [htok, List.filter_cons_of_neg (by simp [hk]), hfilter]
        show removeFirst key (key :: flattenItems rest) = _
        simp [removeFirst]
    · have hkb : isK i = false := by simpa using hk
      have hnokey : key ∉ i.tokens := hother i hwf_i hkb
      have hcr : rest.countP isK ≤ 1 := by
        simp only [List.countP_cons, hkb] at hcount
        omega
      obtain ⟨IH1, IH2⟩ := IH hwf_rest hcr
      constructor
      · show (i.tokens ++ flattenItems rest).contains key = _
        have hmerge : (i.tokens ++ flattenItems rest).contains key =
            (flattenItems rest).contains key := by
          rcases h : (flattenItems rest).contains key with _ | _
          · rw [Bool.eq_false_iff]
            intro hcon
            have : key ∈ i.tokens ++ flattenItems rest := by
              simpa [List.contains_iff_exists_mem_beq, beq_iff_eq] using hcon
            rcases List.mem_append.mp this with h2 | h2
            · exact absurd h2 hnokey
            · rw [Bool.eq_false_iff] at h
              exact h (by simpa [List.contains_iff_exists_mem_beq, beq_iff_eq] using h2)
          · have : key ∈ flattenItems rest := by
              simpa [List.contains_iff_exists_mem_beq, beq_iff_eq] using h
            simpa [List.contains_iff_exists_mem_beq, beq_iff_eq] using
              Or.inr this
        rw [hmerge, IH1, List.any_cons, hkb]
        simp
      · show removeFirst key (i.tokens ++ flattenItems rest) = _
        rw [removeFirst_append_not_mem key _ _ hnokey, IH2,
          List.filter_cons_of_pos (by simp [hkb])]
        rfl

/-- The space-separated scan reports not-found when the key is absent. -/
theorem takeExact_not_mem (key : String) (l : List String) (h : key ∉ l) :
    takeExact key l = .notFound := by
  induction l with
  | nil => rfl
  | cons x rest IH =>
    have hx : x ≠ key := fun hcon => h (by simp [hcon])
    have hrest : key ∉ rest := fun hcon => h (by simp [hcon])
    cases rest with
    | nil => simp [takeExact, hx]
    | cons y t =>
      simp only [takeExact, if_neg hx, IH hrest]

/-- The space-separated scan skips a region without the key. -/
theorem takeExact_append_not_mem (key : String) (xs l : List String)
    (hx : key ∉ xs) :
    takeExact key (xs ++ l) =
      match takeExact key l with
      | .found v r => .found v (xs ++ r)
      | o => o := by
  induction xs with
  | nil =>
    rw [List.nil_append]
    cases h : takeExact key l <;> simp [h]
  | cons x t IH =>
    have hx1 : x ≠ key := fun h => hx (by simp [h])
    have hx2 : key ∉ t := fun h => hx (by simp [h])
    cases hxl : t ++ l with
    | nil =>
      obtain ⟨h1, h2⟩ := List.append_eq_nil.mp hxl
      subst h1
      subst h2
      simp [takeExact, hx1]
    | cons y u =>
      show takeExact key (x :: (t ++ l)) = _
      rw [hxl]
      simp only [takeExact, if_neg hx1]
      rw [← hxl, IH hx2]
      cases takeExact key l with
      | notFound => rfl
      | lastNoValue => rfl
      | found v r => rfl

/-- The `key=value` scan finds nothing when no token has the prefix. -/
theorem takeEq_none (key : String) (l : List String)
    (h : ∀ t ∈ l, (key.data ++ [Char.ofNat 61]).isPrefixOf t.data = false) :
    takeEq key l = none := by
  induction l with
  | nil => rfl
  | cons x rest IH =>
    have hx := h x (by simp)
    simp only [takeEq, hx, Bool.false_eq_true, if_false]
    rw [IH (fun t ht => h t (by simp [ht]))]
    rfl

/-- Effect of the space-separated scan on a flattened well-formed item
list containing the value-flag item: the flag and its adjacent value are
found and removed together. -/
theorem takeExact_flatten_found (key : String) (isK : ArgItem → Bool)
    (hsingle : ∀ i, isK i = true → ∃ v, i.tokens = [key, v])
    (hother : ∀ i, i.wfItem = true → isK i = false → key ∉ i.tokens)
    (items : List ArgItem) (hwf : ∀ i ∈ items, i.wfItem = true)
    (hcount : items.countP isK ≤ 1) (hany : items.any isK = true) :
    ∃ v, takeExact key (flattenItems items) =
      .found v (flattenItems (items.filter (fun i => !(isK i)))) := by
  induction items with
  | nil => simp at hany
  | cons i rest IH =>
    have hwf_i : i.wfItem = true := hwf i (by simp)
    have hwf_rest : ∀ j ∈ rest, j.wfItem = true := fun j hj => hwf j (by simp [hj])
    by_cases hk : isK i = true
    · obtain ⟨v, htok⟩ := hsingle i hk
      have hcount0 : rest.countP isK = 0 := by
        simp only [List.countP_cons, hk, if_pos] at hcount
        omega
      have hnone : ∀ j ∈ rest, isK j = false := by
        intro j hj
        simpa using List.countP_eq_zero.mp hcount0 j hj
      have hfilter : rest.filter (fun i => !(isK i)) = rest := by
        apply List.filter_eq_self.mpr
        intro j hj
        simp [hnone j hj]
      refine ⟨v, ?_⟩
      rw [List.filter_cons_of_neg (by simp [hk]), hfilter]
      show takeExact key (i.tokens ++ flattenItems rest) = _
      rw [htok]
      show takeExact key (key :: v :: flattenItems rest) = _
      simp [takeExact]
    · have hkb : isK i = false := by simpa using hk
      have hnokey : key ∉ i.tokens := hother i hwf_i hkb
      have hcr : rest.countP isK ≤ 1 := by
        simp only [List.countP_cons, hkb] at hcount
        omega
      have hanyr : rest.any isK = true := by
        simpa [List.any_cons, hkb] using hany
      obtain ⟨v, hv⟩ := IH hwf_rest hcr hanyr
      refine ⟨v, ?_⟩
      show takeExact key (i.tokens ++ flattenItems rest) = _
      rw [takeExact_append_not_mem key _ _ hnokey, hv,
        List.filter_cons_of_pos (by simp [hkb])]
      rfl

/-- Effect of one `opt_value_from_str` extraction step on a flattened
well-formed item list: extraction succeeds (no panic), the value-flag item
is removed when present, and the rest of the vector is untouched. -/
theorem optValue_flatten (key : String) (isK : ArgItem → Bool)
    (hsingle : ∀ i, isK i = true → ∃ v, i.tokens = [key, v])
    (hother : ∀ i, i.wfItem = true → isK i = false → key ∉ i.tokens)
    (heq : ∀ i : ArgItem, i.wfItem = true → ∀ t ∈ i.tokens,
      (key.data ++ [Char.ofNat 61]).isPrefixOf t.data = false)
    (items : List ArgItem) (hwf : ∀ i ∈ items, i.wfItem = true)
    (hcount : items.countP isK ≤ 1) :
    ∃ w, optValueFromStr key (flattenItems items) =
      .ok (w, flattenItems (items.filter (fun i => !(isK i)))) := by
  by_cases hany : items.any isK = true
  · obtain ⟨v, hv⟩ := takeExact_flatten_found key isK hsingle hother items hwf
      hcount hany
    exact ⟨some v, by simp only [optValueFromStr, hv]⟩
  · have hanyb : items.any isK = false := by simpa using hany
    have hnone : ∀ j ∈ items, isK j = false := by
      intro j hj
      have := List.any_eq_false.mp hanyb j hj
      simpa using this
    have hnokey : key ∉ flattenItems items := by
      rw [mem_flattenItems]
      rintro ⟨j, hj, hjt⟩
      exact absurd hjt (hother j (hwf j hj) (hnone j hj))
    have hfilter : items.filter (fun i => !(isK i)) = items := by
      apply List.filter_eq_self.mpr
      intro j hj
      simp [hnone j hj]
    have hq : takeEq key (flattenItems items) = none := by
      apply takeEq_none
      intro t ht
      obtain ⟨j, hj, hjt⟩ := (mem_flattenItems t items).mp ht
      exact heq j (hwf j hj) t hjt
    refine ⟨none, ?_⟩
    rw [hfilter]
    simp only [optValueFromStr, takeExact_not_mem key _ hnokey, hq]

/-- A flag key is not the pair of tokens of a foreign value-flag item. -/
theorem not_mem_pair (key lit v : String) (h1 : key ≠ lit)
    (h2 : strStartsWith v "-" = false) (h3 : strStartsWith key "-" = true) :
    key ∉ [lit, v] := by
  intro hcon
  rcases List.mem_cons.mp hcon with h | h
  · exact h1 h
  · have hv : key = v := by simpa using h
    exact (ne_of_not_dash v h2 key h3) hv.symm

/-- A flag key is not a positional token. -/
theorem not_mem_name (key n : String) (h2 : strStartsWith n "-" = false)
    (h3 : strStartsWith key "-" = true) : key ∉ [n] := by
  intro hcon
  have hv : key = n := by simpa using hcon
  exact (ne_of_not_dash n h2 key h3) hv.symm

/-- No token of a well-formed item carries a `key=` prefix for a
flag-prefixed key that is not an extension of one of the six literals. -/
theorem eq_prefix_tokens_false (key : String)
    (hkd : strStartsWith key "-" = true)
    (hlit : ∀ f ∈ (["--release", "--example", "--build-only", "--features",
      "--host", "--port"] : List String),
      (key.data ++ [Char.ofNat 61]).isPrefixOf f.data = false) :
    ∀ i : ArgItem, i.wfItem = true → ∀ t ∈ i.tokens,
      (key.data ++ [Char.ofNat 61]).isPrefixOf t.data = false := by
  intro i hwf t ht
  cases i with
  | flagRelease =>
    have h : t = "--release" := by simpa [ArgItem.tokens] using ht
    subst h
    exact hlit _ (by simp)
  | flagExample =>
    have h : t = "--example" := by simpa [ArgItem.tokens] using ht
    subst h
    exact hlit _ (by simp)
  | flagBuildOnly =>
    have h : t = "--build-only" := by simpa [ArgItem.tokens] using ht
    subst h
    exact hlit _ (by simp)
  | optFeatures v =>
    have hv : strStartsWith v "-" = false := by simpa [ArgItem.wfItem] using hwf
    rcases List.mem_cons.mp ht with h | h
    · subst h
      exact hlit _ (by simp)
    · have h2 : t = v := by simpa using h
      rw [h2]
      exact eq_prefix_false_of_not_dash v hv key hkd
  | optHost v =>
    have hv : strStartsWith v "-" = false := by simpa [ArgItem.wfItem] using hwf
    rcases List.mem_cons.mp ht with h | h
    · subst h
      exact hlit _ (by simp)
    · have h2 : t = v := by simpa using h
      rw [h2]
      exact eq_prefix_false_of_not_dash v hv key hkd
  | optPort v =>
    have hv : strStartsWith v "-" = false := by simpa [ArgItem.wfItem] using hwf
    rcases List.mem_cons.mp ht with h | h
    · subst h
      exact hlit _ (by simp)
    · have h2 : t = v := by simpa using h
      rw [h2]
      exact eq_prefix_false_of_not_dash v hv key hkd
  | name n =>
    have hv : strStartsWith n "-" = false := by simpa [ArgItem.wfItem] using hwf
    have h2 : t = n := by simpa [ArgItem.tokens] using ht
    rw [h2]
    exact eq_prefix_false_of_not_dash n hv key hkd

/-- Tokens of the release-flag item. -/
theorem release_single : ∀ i : ArgItem, i.isRelease = true →
    ArgItem.tokens i = ["--release"] := by
  intro i hk
  cases i <;> first | rfl | exact absurd hk (by simp [ArgItem.isRelease])

/-- The release key does not occur in tokens of other items. -/
theorem release_other : ∀ i : ArgItem, i.wfItem = true → i.isRelease = false →
    "--release" ∉ i.tokens := by
  intro i hwf hk
  cases i with
  | flagRelease => exact absurd hk (by simp [ArgItem.isRelease])
  | flagExample => decide
  | flagBuildOnly => decide
  | optFeatures v =>
    exact not_mem_pair _ _ v (by decide)
      (by simpa [ArgItem.wfItem] using hwf) (by decide)
  | optHost v =>
    exact not_mem_pair _ _ v (by decide)
      (by simpa [ArgItem.wfItem] using hwf) (by decide)
  | optPort v =>
    exact not_mem_pair _ _ v (by decide)
      (by simpa [ArgItem.wfItem] using hwf) (by decide)
  | name n =>
    exact not_mem_name _ n (by simpa [ArgItem.wfItem] using hwf) (by decide)

/-- Tokens of the example-flag item. -/
theorem exampleFlag_single : ∀ i : ArgItem, i.isExampleFlag = true →
    ArgItem.tokens i = ["--example"] := by
  intro i hk
  cases i <;> first | rfl | exact absurd hk (by simp [ArgItem.isExampleFlag])

/-- The example key does not occur in tokens of other items. -/
theorem exampleFlag_other : ∀ i : ArgItem, i.wfItem = true →
    i.isExampleFlag = false → "--example" ∉ i.tokens := by
  intro i hwf hk
  cases i with
  | flagRelease => decide
  | flagExample => exact absurd hk (by simp [ArgItem.isExampleFlag])
  | flagBuildOnly => decide
  | optFeatures v =>
    exact not_mem_pair _ _ v (by decide)
      (by simpa [ArgItem.wfItem] using hwf) (by decide)
  | optHost v =>
    exact not_mem_pair _ _ v (by decide)
      (by simpa [ArgItem.wfItem] using hwf) (by decide)
  | optPort v =>
    exact not_mem_pair _ _ v (by decide)
      (by simpa [ArgItem.wfItem] using hwf) (by decide)
  | name n =>
    exact not_mem_name _ n (by simpa [ArgItem.wfItem] using hwf) (by decide)

/-- Tokens of the build-only-flag item. -/
theorem buildOnly_single : ∀ i : ArgItem, i.isBuildOnly = true →
    ArgItem.tokens i = ["--build-only"] := by
  intro i hk
  cases i <;> first | rfl | exact absurd hk (by simp [ArgItem.isBuildOnly])

/-- The build-only key does not occur in tokens of other items. -/
theorem buildOnly_other : ∀ i : ArgItem, i.wfItem = true →
    i.isBuildOnly = false → "--build-only" ∉ i.tokens := by
  intro i hwf hk
  cases i with
  | flagRelease => decide
  | flagExample => decide
  | flagBuildOnly => exact absurd hk (by simp [ArgItem.isBuildOnly])
  | optFeatures v =>
    exact not_mem_pair _ _ v (by decide)
      (by simpa [ArgItem.wfItem] using hwf) (by decide)
  | optHost v =>
    exact not_mem_pair _ _ v (by decide)
      (by simpa [ArgItem.wfItem] using hwf) (by decide)
  | optPort v =>
    exact not_mem_pair _ _ v (by decide)
      (by simpa [ArgItem.wfItem] using hwf) (by decide)
  | name n =>
    exact not_mem_name _ n (by simpa [ArgItem.wfItem] using hwf) (by decide)

/-- Tokens of the features value-flag item. -/
theorem features_single : ∀ i : ArgItem, i.isFeatures = true →
    ∃ v, ArgItem.tokens i = ["--features", v] := by
  intro i hk
  cases i <;> first | exact ⟨_, rfl⟩ | exact absurd hk (by simp [ArgItem.isFeatures])

/-- The features key does not occur in tokens of other items. -/
theorem features_other : ∀ i : ArgItem, i.wfItem = true →
    i.isFeatures = false → "--features" ∉ i.tokens := by
  intro i hwf hk
  cases i with
  | flagRelease => decide
  | flagExample => decide
  | flagBuildOnly => decide
  | optFeatures v => exact absurd hk (by simp [ArgItem.isFeatures])
  | optHost v =>
    exact not_mem_pair _ _ v (by decide)
      (by simpa [ArgItem.wfItem] using hwf) (by decide)
  | optPort v =>
    exact not_mem_pair _ _ v (by decide)
      (by simpa [ArgItem.wfItem] using hwf) (by decide)
  | name n =>
    exact not_mem_name _ n (by simpa [ArgItem.wfItem] using hwf) (by decide)

/-- Tokens of the host value-flag item. -/
theorem host_single : ∀ i : ArgItem, i.isHost = true →
    ∃ v, ArgItem.tokens i = ["--host", v] := by
  intro i hk
  cases i <;> first | exact ⟨_, rfl⟩ | exact absurd hk (by simp [ArgItem.isHost])

/-- The host key does not occur in tokens of other items. -/
theorem host_other : ∀ i : ArgItem, i.wfItem = true →
    i.isHost = false → "--host" ∉ i.tokens := by
  intro i hwf hk
  cases i with
  | flagRelease => decide
  | flagExample => decide
  | flagBuildOnly => decide
  | optFeatures v =>
    exact not_mem_pair _ _ v (by decide)
      (by simpa [ArgItem.wfItem] using hwf) (by decide)
  | optHost v => exact absurd hk (by simp [ArgItem.isHost])
  | optPort v =>
    exact not_mem_pair _ _ v (by decide)
      (by simpa [ArgItem.wfItem] using hwf) (by decide)
  | name n =>
    exact not_mem_name _ n (by simpa [ArgItem.wfItem] using hwf) (by decide)

/-- Tokens of the port value-flag item. -/
theorem port_single : ∀ i : ArgItem, i.isPort = true →
    ∃ v, ArgItem.tokens i = ["--port", v] := by
  intro i hk
  cases i <;> first | exact ⟨_, rfl⟩ | exact absurd hk (by simp [ArgItem.isPort])

/-- The port key does not occur in tokens of other items. -/
theorem port_other : ∀ i : ArgItem, i.wfItem = true →
    i.isPort = false → "--port" ∉ i.tokens := by
  intro i hwf hk
  cases i with
  | flagRelease => decide
  | flagExample => decide
  | flagBuildOnly => decide
  | optFeatures v =>
    exact not_mem_pair _ _ v (by decide)
      (by simpa [ArgItem.wfItem] using hwf) (by decide)
  | optHost v =>
    exact not_mem_pair _ _ v (by decide)
      (by simpa [ArgItem.wfItem] using hwf) (by decide)
  | optPort v => exact absurd hk (by simp [ArgItem.isPort])
  | name n =>
    exact not_mem_name _ n (by simpa [ArgItem.wfItem] using hwf) (by decide)

/-- Flag extraction on a flattened well-formed item list succeeds (no
panic) and the remaining token list is exactly the positional tokens. -/
theorem extractArgs_flatten (items : List ArgItem) (hwf : WFItems items) :
    ∃ r e b f h p, extractArgs (flattenItems items) =
      .ok ⟨r, e, b, f, h, p, flattenItems (items.filter (fun i => i.isName))⟩ := by
  have h1 := picoContains_flatten "--release" ArgItem.isRelease
    release_single release_other items hwf.wf_each hwf.rel_le
  have hwf1 : WFItems (items.filter (fun i => !(ArgItem.isRelease i))) :=
    WFItems.filter _ _ hwf
  have h2 := picoContains_flatten "--example" ArgItem.isExampleFlag
    exampleFlag_single exampleFlag_other _ hwf1.wf_each hwf1.ex_le
  have hwf2 : WFItems ((items.filter (fun i => !(ArgItem.isRelease i))).filter
      (fun i => !(ArgItem.isExampleFlag i))) :=
    WFItems.filter _ _ hwf1
  have h3 := picoContains_flatten "--build-only" ArgItem.isBuildOnly
    buildOnly_single buildOnly_other _ hwf2.wf_each hwf2.bo_le
  have hwf3 : WFItems (((items.filter (fun i => !(ArgItem.isRelease i))).filter
      (fun i => !(ArgItem.isExampleFlag i))).filter
      (fun i => !(ArgItem.isBuildOnly i))) :=
    WFItems.filter _ _ hwf2
  obtain ⟨w4, hw4⟩ := optValue_flatten "--features" ArgItem.isFeatures
    features_single features_other
    (eq_prefix_tokens_false "--features" (by decide) (by decide))
    _ hwf3.wf_each hwf3.feat_le
  have hwf4 : WFItems ((((items.filter (fun i => !(ArgItem.isRelease i))).filter
      (fun i => !(ArgItem.isExampleFlag i))).filter
      (fun i => !(ArgItem.isBuildOnly i))).filter
      (fun i => !(ArgItem.isFeatures i))) :=
    WFItems.filter _ _ hwf3
  obtain ⟨w5, hw5⟩ := optValue_flatten "--host" ArgItem.isHost
    host_single host_other
    (eq_prefix_tokens_false "--host" (by decide) (by decide))
    _ hwf4.wf_each hwf4.host_le
  have hwf5 : WFItems (((((items.filter (fun i => !(ArgItem.isRelease i))).filter
      (fun i => !(ArgItem.isExampleFlag i))).filter
      (fun i => !(ArgItem.isBuildOnly i))).filter
      (fun i => !(ArgItem.isFeatures i))).filter
      (fun i => !(ArgItem.isHost i))) :=
    WFItems.filter _ _ hwf4
  obtain ⟨w6, hw6⟩ := optValue_flatten "--port" ArgItem.isPort
    port_single port_other
    (eq_prefix_tokens_false "--port" (by decide) (by decide))
    _ hwf5.wf_each hwf5.port_le
  have hcol : ((((((items.filter (fun i => !(ArgItem.isRelease i))).filter
      (fun i => !(ArgItem.isExampleFlag i))).filter
      (fun i => !(ArgItem.isBuildOnly i))).filter
      (fun i => !(ArgItem.isFeatures i))).filter
      (fun i => !(ArgItem.isHost i))).filter
      (fun i => !(ArgItem.isPort i))) = items.filter (fun i => i.isName) := by
    rw [List.filter_filter, List.filter_filter, List.filter_filter,
      List.filter_filter, List.filter_filter]
    refine List.filter_congr ?_
    intro i hi
    cases i <;> rfl
  refine ⟨(flattenItems items).contains "--release",
    (flattenItems (items.filter (fun i => !(ArgItem.isRelease i)))).contains
      "--example",
    (flattenItems ((items.filter (fun i => !(ArgItem.isRelease i))).filter
      (fun i => !(ArgItem.isExampleFlag i)))).contains "--build-only",
    w4, w5, w6, ?_⟩
  rw [← hcol]
  simp only [extractArgs, picoContains, h1.2, h2.2, h3.2, hw4, hw5, hw6]

/-- C6 (counterexample): the vector `["--release", "--release", "x"]`
contains exactly one non-flag token and otherwise only recognised flags,
yet resolution fails: `contains` removes only the first `--release`, the
duplicate survives to the remaining list and is reported as an unknown
option. -/
theorem wellformed_args_resolve_cex :
    Args.from_env ["--release", "--release", "x"] =
      .err (.unknownOption "--release") := rfl

/-- C6 (amended): for every raw argument vector built from recognised
flags — each flag at most once, each value flag immediately followed by a
value token that does not start with the flag prefix — and exactly one
positional token (not starting with the flag prefix), resolution succeeds
and the returned unit name is exactly that token. -/
theorem wellformed_args_resolve (items : List ArgItem) (n : String)
    (hwf : WFItems items)
    (hpos : items.filter (fun i => i.isName) = [ArgItem.name n]) :
    ∃ a, Args.from_env (flattenItems items) = .ok a ∧ a.name = n := by
  obtain ⟨r, e, b, f, h, p, hex⟩ := extractArgs_flatten items hwf
  have hnmem : ArgItem.name n ∈ items := by
    have hmem : ArgItem.name n ∈ items.filter (fun i => i.isName) := by
      rw [hpos]
      simp
    exact List.mem_of_mem_filter hmem
  have hnd : strStartsWith n "-" = false := by
    have hwfn := hwf.wf_each _ hnmem
    simpa [ArgItem.wfItem] using hwfn
  refine ⟨⟨r, e, n, f, b, h, p⟩, ?_, rfl⟩
  simp only [Args.from_env, hex, hpos, finishArgs]
  simp [flattenItems, ArgItem.tokens, List.find?, hnd]

/-- Witness for C6 at `--release --features a,b demo`. -/
theorem wellformed_args_resolve_witness :
    ∃ a, Args.from_env (flattenItems [ArgItem.flagRelease,
      ArgItem.optFeatures "a,b", ArgItem.name "demo"]) = .ok a ∧
      a.name = "demo" :=
  wellformed_args_resolve
    [ArgItem.flagRelease, ArgItem.optFeatures "a,b", ArgItem.name "demo"]
    "demo"
    ⟨by decide, by decide, by decide, by decide, by decide, by decide,
     by decide⟩
    (by decide)
